import Mathlib

/-!
Verification of the yarnlock-rs lexer and parser (src/lexer.rs, src/parser.rs,
src/tokens.rs) against its natural-language specification.

The Rust code is shallowly embedded: byte slices become `List Nat` (each entry a
byte value 0-255 as produced by the source's `&[u8]` indexing), Rust `usize`
indices become `Nat`, the `i32` line/column counters become `Int` (no claim
depends on 32-bit wraparound, which would require inputs of 2^31 bytes), and the
`f64` payload of `Token::Number` / `Value::Number` is kept as the exact `Int`
produced by `str::parse::<i64>` (the `as f64` conversion is lossless below 2^53;
every concrete value appearing in the claims is tiny).  Fallible code returns
`Except` / `Option`.  The lexer's `while` loop and the parser's recursive
`parse` are embedded with explicit fuel so that every definition is a
structurally recursive, executable function; fuel exhaustion yields a
distinguished error reason that the real code can never produce.
-/

namespace YarnLock

/-- Token of tokens.rs (`Token<'t>`): the borrowed byte slices become `List Nat`,
`Number(f64)` keeps the exact integer parsed by the lexer (see module comment). -/
inductive Token where
  | Bool (b : Bool)
  | String (s : List Nat)
  | Number (n : Int)
  | Indent (i : Nat)
  | Comment (s : List Nat)
  | EOF
  | Colon
  | NewLine
  | Invalid
  | Comma
deriving DecidableEq, Repr

/-- TokenWrapper of tokens.rs: a token with its 0-based column and 1-based line. -/
structure TokenWrapper where
  col : Int
  line : Int
  token : Token
deriving DecidableEq, Repr

/-- LexerError of lexer.rs. -/
structure LexerError where
  line : Int
  col : Int
  reason : String
deriving DecidableEq, Repr

/-- index_of_char of lexer.rs: first index `i ≥ start` with `input[i] = target`
(`Ok`/`Err` becomes `Option`). -/
def index_of_char (input : List Nat) (start : Nat) (target : Nat) : Option Nat :=
  (List.range input.length).find? (fun i => decide (start ≤ i) && (input.getD i 0 == target))

/-- measure_indent_len of lexer.rs: index of the first non-space byte, or the
whole length when every byte is a space; equivalently the count of leading spaces. -/
def measure_indent_len : List Nat → Nat
  | [] => 0
  | b :: rest => if b ≠ 32 then 0 else measure_indent_len rest + 1

/-- Loop of measure_quoted_string: scan from index `i` for a `"` byte whose
predecessor is not a lone backslash.  The Rust `input[i - 1] == b'\\' &&
input[i - 2] != b'\\'` short-circuits, and the function is only entered with
`input[0] = '"'`, so the `i - 2` access at `i = 1` (which would underflow a
`usize`) is never evaluated by the source; with Lean's truncated subtraction the
conjunction has the same value on every reachable input.  Fuel counts the
remaining indices. -/
def mqs_go (input : List Nat) : Nat → Nat → Except String Nat
  | _, 0 => .error "Unexpected EOF"
  | i, fuel + 1 =>
    if i < input.length then
      if input.getD i 0 = 34 then
        if !((input.getD (i - 1) 0 == 92) && (input.getD (i - 2) 0 != 92)) then
          .ok (i + 1)
        else mqs_go input (i + 1) fuel
      else mqs_go input (i + 1) fuel
    else .error "Unexpected EOF"

/-- measure_quoted_string of lexer.rs: length (closing quote included) of the
quoted string starting at index 0. -/
def measure_quoted_string (input : List Nat) : Except String Nat :=
  mqs_go input 1 input.length

/-- Digit fold shared by the embeddings of `str::parse::<i64>` and
`str::parse::<i32>`: decimal value of a list of ASCII digit bytes. -/
def val10 (ds : List Nat) : Int :=
  ds.foldl (fun a d => a * 10 + ((d : Int) - 48)) 0

/-- ASCII decimal digit byte (the real digit class 0-9, used by `str::parse`). -/
def isDigitByte (b : Nat) : Bool := 48 ≤ b && b ≤ 57

/-- Common digit part of `str::parse::<iN>`: after the optional sign, there
must be at least one byte, every byte must be a decimal digit, and the signed
value must lie within `[lo, hi]` (out-of-range accumulation is an overflow
`Err` in Rust). -/
def parseDigits (ds : List Nat) (lo hi : Int) (neg : Bool) : Option Int :=
  if ds.isEmpty then none
  else if !(ds.all isDigitByte) then none
  else if neg then
    if -(val10 ds) < lo then none else some (-(val10 ds))
  else
    if val10 ds > hi then none else some (val10 ds)

/-- str::parse::<i64> on a byte slice already known to be ASCII: optional sign,
at least one digit, all digits, and the value must fit in an `i64`. -/
def parseI64 (s : List Nat) : Option Int :=
  match s with
  | [] => none
  | b :: rest =>
    parseDigits (if b = 43 || b = 45 then rest else b :: rest)
      (-9223372036854775808) 9223372036854775807 (b == 45)

/-- Loop of parse_number of lexer.rs: the Rust code sets `end = i` and breaks at
the first byte failing `(b'0'..b'9').contains` — an exclusive range, so the byte
`'9'` (57) ends the run — and when the loop finishes without breaking, `end`
keeps its initial value 0. `none` here means "loop finished without break". -/
def pn_end : List Nat → Nat → Option Nat
  | [], _ => none
  | b :: rest, i => if !(decide (48 ≤ b) && decide (b < 57)) then some i else pn_end rest (i + 1)

/-- parse_number of lexer.rs: take `input[..end]` with `end` as computed by
`pn_end` (0 when the digit run reaches the end of the input) and parse it with
`str::parse::<i64>`. -/
def parse_number (input : List Nat) : Except String (Int × Nat) :=
  let e := (pn_end input 0).getD 0
  match parseI64 (input.take e) with
  | some v => .ok (v, e)
  | none => .error "Number parse failed"

/-- match_str_prefix of lexer.rs. -/
def prefix_matches (input : List Nat) (pb : List Nat) : Bool :=
  if pb.length > input.length then false else input.take pb.length == pb

/-- measure_unquoted_string of lexer.rs: index of the first `:`, space, LF, CR
or `,`, or the whole length. -/
def measure_unquoted_string : List Nat → Nat
  | [] => 0
  | b :: rest =>
    if b = 58 || b = 32 || b = 10 || b = 13 || b = 44 then 0
    else measure_unquoted_string rest + 1

/-- The bytes of the literal `true`. -/
def trueBytes : List Nat := [116, 114, 117, 101]

/-- The bytes of the literal `false`. -/
def falseBytes : List Nat := [102, 97, 108, 115, 101]

/-- Outcome of one iteration of the tokenize loop, before the common tail. -/
inductive StepOut where
  | err (r : String)
  | newline (chop : Nat)
  | tok (t : Token) (chop : Nat)
  | skip
deriving DecidableEq, Repr

/-- One iteration of the `while` loop of tokenize (lexer.rs, lines 82-163):
dispatch on the first byte exactly as the Rust `match ch` does, returning the
committed token and the number of consumed bytes.  `skip` is the
space-not-at-line-start arm, which consumes one byte and commits no token;
`tok _ 0` is only produced by the `Invalid` arm, whose `chop` stays 0. -/
def tokStep (input : List Nat) (lnl : Bool) : StepOut :=
  match input with
  | [] => .err "empty input"
  | ch :: rest =>
    if ch = 13 || ch = 10 then
      .newline (if rest.headD 0 = 10 then 2 else 1)
    else if ch = 35 then
      let nn := match index_of_char (ch :: rest) 1 10 with
        | some idx => idx
        | none => (ch :: rest).length
      .tok (.Comment (((ch :: rest).take nn).drop 1)) nn
    else if ch = 32 then
      if lnl then
        let isz := measure_indent_len (ch :: rest)
        if isz % 2 ≠ 0 then .err "Invalid number of spaces"
        else .tok (.Indent isz) isz
      else .skip
    else if ch = 34 then
      match measure_quoted_string (ch :: rest) with
      | .ok len => .tok (.String ((ch :: rest).take len)) len
      | .error r => .err r
    else if ch = 58 then .tok .Colon 1
    else if ch = 44 then .tok .Comma 1
    else if prefix_matches (ch :: rest) trueBytes then .tok (.Bool true) 4
    else if prefix_matches (ch :: rest) falseBytes then .tok (.Bool false) 5
    else if decide (48 ≤ ch) && decide (ch < 57) then
      match parse_number (ch :: rest) with
      | .ok (n, len) => .tok (.Number n) len
      | .error r => .err r
    else if (decide (97 ≤ ch) && decide (ch < 122)) || (decide (65 ≤ ch) && decide (ch < 90))
        || ch = 47 || ch = 46 || ch = 95 || ch = 45 then
      .tok (.String ((ch :: rest).take (measure_unquoted_string (ch :: rest))))
        (measure_unquoted_string (ch :: rest))
    else .tok .Invalid 0

/-- A committed token together with the byte range it consumed: `(wrapper,
start offset into the original input, number of bytes consumed)`.  The start
and length are observability instrumentation (the Rust code consumes the same
bytes by slicing); dropping them gives the real token list. -/
abbrev RangedToken := TokenWrapper × Nat × Nat

/-- The tokenize loop of lexer.rs with the common tail of lines 164-169: commit
the token, fail with `infinite` if no byte was consumed, advance column and
input.  The `\r`/`\n` arm bypasses that tail (it resets the column and sets the
line-start flag itself).  `pos` is the byte offset of the remaining input inside
the original buffer.  Fuel decreases once per iteration; since every surviving
iteration consumes at least one byte, `input.length + 1` is always enough. -/
def tokLoop : Nat → List Nat → Nat → Int → Int → Bool → Except LexerError (List RangedToken)
  | _, [], pos, line, col, _ => .ok [(⟨col, line, .EOF⟩, pos, 0)]
  | 0, _ :: _, _, line, col, _ => .error ⟨line, col, "lexer fuel exhausted"⟩
  | fuel + 1, ch :: rest, pos, line, col, lnl =>
    match tokStep (ch :: rest) lnl with
    | .err r => .error ⟨line, col, r⟩
    | .newline chop =>
      match tokLoop fuel ((ch :: rest).drop chop) (pos + chop) (line + 1) 0 true with
      | .ok anns => .ok ((⟨col, line, .NewLine⟩, pos, chop) :: anns)
      | .error e => .error e
    | .skip => tokLoop fuel rest (pos + 1) line (col + 1) false
    | .tok t chop =>
      if chop = 0 then .error ⟨line, col, "infinite"⟩
      else
        match tokLoop fuel ((ch :: rest).drop chop) (pos + chop) line (col + chop) false with
        | .ok anns => .ok ((⟨col, line, t⟩, pos, chop) :: anns)
        | .error e => .error e

/-- tokenize of lexer.rs, instrumented with the consumed byte range of every
committed token. -/
def tokenizeRanges (input : List Nat) : Except LexerError (List RangedToken) :=
  tokLoop (input.length + 1) input 0 1 0 true

/-- tokenize of lexer.rs: `line` starts at 1, `col` at 0, `last_new_line` true. -/
def tokenize (input : List Nat) : Except LexerError (List TokenWrapper) :=
  (tokenizeRanges input).map (fun l => l.map (fun a => a.1))

/-! ## UTF-8 (std::str::from_utf8 and char iteration)

The parser decodes byte slices to Rust `String`s.  A Rust `String`/`&str` is
modelled as a Lean `String` (a sequence of Unicode scalar values, exactly
`char`).  `utf8DecodeGo` is `std::str::from_utf8` followed by `.chars()`: it
accepts exactly well-formed UTF-8 (shortest form, no surrogates, code points up
to U+10FFFF), the same validation the Rust standard library performs. -/

/-- Decode one UTF-8-encoded scalar value from the front of a byte list: the
code point and the remaining bytes, or `none` when the bytes do not begin with
a well-formed sequence (shortest form, no surrogates, at most U+10FFFF). -/
def utf8Step (l : List Nat) : Option (Nat × List Nat) :=
  match l with
  | [] => none
  | b :: rest =>
    if b < 0x80 then some (b, rest)
    else if 0xC2 ≤ b ∧ b ≤ 0xDF then
      match rest with
      | b1 :: r =>
        if 0x80 ≤ b1 ∧ b1 ≤ 0xBF then some ((b - 0xC0) * 64 + (b1 - 0x80), r)
        else none
      | [] => none
    else if 0xE0 ≤ b ∧ b ≤ 0xEF then
      match rest with
      | b1 :: b2 :: r =>
        if ((if b = 0xE0 then 0xA0 else 0x80) ≤ b1 ∧ b1 ≤ (if b = 0xED then 0x9F else 0xBF))
            ∧ (0x80 ≤ b2 ∧ b2 ≤ 0xBF) then
          some ((b - 0xE0) * 4096 + (b1 - 0x80) * 64 + (b2 - 0x80), r)
        else none
      | _ => none
    else if 0xF0 ≤ b ∧ b ≤ 0xF4 then
      match rest with
      | b1 :: b2 :: b3 :: r =>
        if ((if b = 0xF0 then 0x90 else 0x80) ≤ b1 ∧ b1 ≤ (if b = 0xF4 then 0x8F else 0xBF))
            ∧ (0x80 ≤ b2 ∧ b2 ≤ 0xBF) ∧ (0x80 ≤ b3 ∧ b3 ≤ 0xBF) then
          some ((b - 0xF0) * 262144 + (b1 - 0x80) * 4096 + (b2 - 0x80) * 64 + (b3 - 0x80), r)
        else none
      | _ => none
    else none

/-- Decode a byte list as strict UTF-8 into its scalar values, one `utf8Step`
per character.  Fuel only bounds the iteration count; each step consumes at
least one byte, so `length + 1` fuel always suffices. -/
def utf8DecodeGo : Nat → List Nat → Option (List Char)
  | 0, _ => none
  | fuel + 1, l =>
    if l = [] then some []
    else
      match utf8Step l with
      | some (cp, r) =>
        match utf8DecodeGo fuel r with
        | some cs => some (Char.ofNat cp :: cs)
        | none => none
      | none => none

/-- std::str::from_utf8, producing the decoded string. -/
def utf8Decode (input : List Nat) : Option String :=
  (utf8DecodeGo (input.length + 1) input).map (fun cs => String.mk cs)

/-! ## Parser (parser.rs) -/

/-- A Rust `String` (an owned, always-valid-UTF-8 text value), modelled as a
Lean `String`; named so it can be mentioned inside `Value` next to the `String`
constructor. -/
abbrev RustString := String

/-- Value of parser.rs.  `Rc<String>` sharing is not observable and is dropped;
`Object`'s `HashMap<String, Value>` is modelled as an association list with
unique keys, where `mapInsert` overwrites the value of an existing key exactly
as `HashMap::insert` does (iteration order carries no meaning in the source). -/
inductive Value where
  | String (s : RustString)
  | Number (n : Int)
  | Boolean (b : Bool)
  | Object (m : List (RustString × Value))
  | Null

/-- Parsing error of parser.rs (`Error`): line, column, static reason. -/
structure Error where
  line : Int
  col : Int
  reason : RustString
deriving DecidableEq, Repr

/-- HashMap::insert: overwrite the existing binding of `k`, or add a new one. -/
def mapInsert (m : List (String × Value)) (k : String) (v : Value) :
    List (String × Value) :=
  if m.any (fun p => p.1 = k) then m.map (fun p => if p.1 = k then (k, v) else p)
  else m ++ [(k, v)]

/-- `for x in keys { map.insert(x, v.clone()) }` of parser.rs. -/
def insertAll (m : List (String × Value)) (keys : List String) (v : Value) :
    List (String × Value) :=
  keys.foldl (fun acc k => mapInsert acc k v) m

/-- The bytes of VERSION_LINE_TEXT = "yarn lockfile v". -/
def VERSION_LINE_TEXT : List Nat :=
  [121, 97, 114, 110, 32, 108, 111, 99, 107, 102, 105, 108, 101, 32, 118]

/-- ASCII whitespace byte: the single-byte code points Rust's `str::trim`
(char::is_whitespace) removes. -/
def asciiWsByte (b : Nat) : Bool :=
  b = 9 || b = 10 || b = 11 || b = 12 || b = 13 || b = 32

/-- str::trim at byte level: drop leading and trailing ASCII whitespace. -/
def asciiTrim (s : List Nat) : List Nat :=
  ((s.dropWhile asciiWsByte).reverse.dropWhile asciiWsByte).reverse

/-- str::parse::<i32>: optional sign, at least one digit, all digits, value in
the `i32` range (overflow is an `Err`). -/
def parse_i32 (s : List Nat) : Option Int :=
  match s with
  | [] => none
  | b :: rest =>
    parseDigits (if b = 43 || b = 45 then rest else b :: rest)
      (-2147483648) 2147483647 (b == 45)

/-- version_match of parser.rs.  The Rust code decodes the comment bytes as
UTF-8, trims Unicode whitespace, tests the `yarn lockfile v` prefix, and parses
the remainder as an `i32`.  The trim is modelled at byte level over the ASCII
whitespace bytes: a successful match forces every byte of the comment to be
ASCII (whitespace bytes, the ASCII prefix, sign/digits), on which the model and
the source agree exactly; comments padded with multi-byte Unicode whitespace
are outside every claim considered here. -/
def version_match (chars : List Nat) : Option Int :=
  if VERSION_LINE_TEXT.isPrefixOf (asciiTrim chars) then
    parse_i32 ((asciiTrim chars).drop VERSION_LINE_TEXT.length)
  else none

/-- Parser::next of parser.rs, as a function of the not-yet-consumed token
suffix.  It returns the token the cursor settles on (`self.cur`) together with
the suffix after it; on failure it returns the error together with the suffix
the internal `token_ptr` has advanced to — call sites that discard the `Result`
(`_ = self.next()`) keep the old `self.cur` but do observe that advance.  Both
error values are built with `line: 0, col: 0` exactly as in the source. -/
def parserNext : List TokenWrapper → Except Error TokenWrapper × List TokenWrapper
  | [] => (.error ⟨0, 0, "Unexpected end of input"⟩, [])
  | tk :: rest =>
    match tk.token with
    | .Comment cm =>
      match version_match cm with
      | none => parserNext rest
      | some v =>
        if v > 1 then (.error ⟨0, 0, "Unsupported lockfile version"⟩, rest)
        else parserNext rest
    | _ => (.ok tk, rest)

/-- unexpected_token_string of parser.rs. -/
def unexpected_token_string : Token → String
  | .Bool _ => "Unexpected token Bool"
  | .String _ => "Unexpected token String"
  | .Number _ => "Unexpected token Number"
  | .Indent _ => "Unexpected token Indent"
  | .Comment _ => "Unexpected token Comment"
  | .EOF => "Unexpected token EOF"
  | .Colon => "Unexpected token Colon"
  | .NewLine => "Unexpected token NewLine"
  | .Invalid => "Unexpected token Invalid"
  | .Comma => "Unexpected token Comma"

/-- The `u` escape of unquote_json_string: u32::from_str_radix(hex, 16) for the
four collected chars — optional `+` sign then hex digits (a `-` is rejected for
an unsigned target); at most four digits, so overflow is impossible. -/
def hexDigitVal (c : Char) : Option Nat :=
  if '0' ≤ c ∧ c ≤ '9' then some (c.toNat - 48)
  else if 'a' ≤ c ∧ c ≤ 'f' then some (c.toNat - 97 + 10)
  else if 'A' ≤ c ∧ c ≤ 'F' then some (c.toNat - 65 + 10)
  else none

/-- u32::from_str_radix with radix 16 on the four collected escape chars. -/
def from_str_radix16 (s : List Char) : Option Nat :=
  match s with
  | [] => none
  | c :: rest =>
    let ds := if c = '+' then rest else c :: rest
    if ds.isEmpty then none
    else
      ds.foldl (fun acc c => match acc, hexDigitVal c with
        | some a, some d => some (a * 16 + d)
        | _, _ => none) (some 0)

/-- Main loop of unquote_json_string of parser.rs after the opening quote:
process decoded chars, appending to the buffer, until the closing quote. -/
def ujs_go : List Char → List Char → Option String
  | [], _ => none
  | c :: rest, buf =>
    if c = '"' then some (String.mk buf)
    else if c = '\\' then
      match rest with
      | [] => none
      | e :: rest2 =>
        if e = '"' then ujs_go rest2 (buf ++ ['"'])
        else if e = '\\' then ujs_go rest2 (buf ++ ['\\'])
        else if e = '/' then ujs_go rest2 (buf ++ ['/'])
        else if e = 'b' then ujs_go rest2 (buf ++ [Char.ofNat 8])
        else if e = 'f' then ujs_go rest2 (buf ++ [Char.ofNat 12])
        else if e = 'n' then ujs_go rest2 (buf ++ ['\n'])
        else if e = 'r' then ujs_go rest2 (buf ++ ['\r'])
        else if e = 't' then ujs_go rest2 (buf ++ ['\t'])
        else if e = 'u' then
          match rest2 with
          | h1 :: h2 :: h3 :: h4 :: rest3 =>
            match from_str_radix16 [h1, h2, h3, h4] with
            | none => none
            | some code =>
              if Nat.isValidChar code then ujs_go rest3 (buf ++ [Char.ofNat code])
              else none
          | _ => none
        else none
    else ujs_go rest (buf ++ [c])

/-- unquote_json_string of parser.rs: decode as UTF-8, require a leading `"`,
then run the escape-processing loop. -/
def unquote_json_string (input : List Nat) : Option String :=
  match utf8DecodeGo (input.length + 1) input with
  | none => none
  | some [] => none
  | some (c :: rest) => if c = '"' then ujs_go rest [] else none

/-- unquote_string of parser.rs: quoted inputs go through the JSON unquoter,
bare inputs are returned as decoded UTF-8 text. -/
def unquote_string (input : List Nat) : Except String String :=
  if input ≠ [] ∧ input.headD 0 = 34 then
    match unquote_json_string input with
    | some s => .ok s
    | none => .error "Invalid JSON string"
  else
    match utf8Decode input with
    | some s => .ok s
    | none => .error "Invalid UTF-8 string"

/-- `matches!(self.cur.token, Token::Colon)`. -/
def isColon : Token → Bool
  | .Colon => true
  | _ => false

/-- The multi-key loop of Parser::parse (parser.rs, lines 159-177): while the
current token is a comma, skip it with an error-discarding advance (`_ =
self.next();` — if that advance fails the stale current token, the comma
itself, is examined and rejected with `Expected string`), require a string,
unquote it as a further key, and advance past it (propagating failure).  Fuel
bounds the iterations; the real loop consumes a token per round. -/
def commaCollect : Nat → TokenWrapper → List TokenWrapper → List String →
    Except Error (List String × TokenWrapper × List TokenWrapper)
  | 0, _, _, _ => .error ⟨0, 0, "parser fuel exhausted"⟩
  | fuel + 1, cur, rest, keys =>
    match cur.token with
    | .Comma =>
      match parserNext rest with
      | (.ok c2, r2) =>
        match c2.token with
        | .String s =>
          match unquote_string s with
          | .error r => .error ⟨c2.line, c2.col, r⟩
          | .ok key =>
            if key = "" then .error ⟨c2.line, c2.col, "Expected a key"⟩
            else
              match parserNext r2 with
              | (.error e, _) => .error e
              | (.ok c3, r3) => commaCollect fuel c3 r3 (keys ++ [key])
        | _ => .error ⟨c2.line, c2.col, "Expected string"⟩
      | (.error _, _) => .error ⟨cur.line, cur.col, "Expected string"⟩
    | _ => .ok (keys, cur, rest)

/-- Parser::parse of parser.rs (the `parse(indent)` level loop, lines 103-223),
with the accumulated map and the cursor state (`self.cur` plus the unconsumed
suffix) made explicit.  On `break` it returns `Value::Object(map)` together
with the cursor state so the enclosing level continues from there.  Every
Rust control-flow quirk is preserved: the `_ = self.next()` after an
indent-at-our-level discards a failed advance (keeping the stale current token
but observing the pointer advance), the scalar-value dispatch runs whether or
not a colon was seen, and after a nested object a current `Indent` token breaks
the level only when this level's indent is 0.  Fuel decreases on every
iteration and every nested level. -/
def parseLoop : Nat → TokenWrapper → List TokenWrapper → Nat → List (String × Value) →
    Except Error (Value × TokenWrapper × List TokenWrapper)
  | 0, _, _, _, _ => .error ⟨0, 0, "parser fuel exhausted"⟩
  | fuel + 1, cur, rest, indent, map =>
    match cur.token with
    | .NewLine =>
      match parserNext rest with
      | (.error e, _) => .error e
      | (.ok nt, r2) =>
        if indent = 0 then parseLoop fuel nt r2 indent map
        else
          match nt.token with
          | .Indent n =>
            if n = indent then
              match parserNext r2 with
              | (.ok c2, r3) => parseLoop fuel c2 r3 indent map
              | (.error _, r3) => parseLoop fuel nt r3 indent map
            else .ok (.Object map, nt, r2)
          | _ => .ok (.Object map, nt, r2)
    | .Indent n =>
      if n = indent then
        match parserNext rest with
        | (.ok c2, r2) => parseLoop fuel c2 r2 indent map
        | (.error _, r2) => parseLoop fuel cur r2 indent map
      else .ok (.Object map, cur, rest)
    | .EOF => .ok (.Object map, cur, rest)
    | .String s =>
      match unquote_string s with
      | .error r => .error ⟨cur.line, cur.col, r⟩
      | .ok key =>
        if key = "" then .error ⟨cur.line, cur.col, "Expected a key"⟩
        else
          match parserNext rest with
          | (.error e, _) => .error e
          | (.ok c2, r2) =>
            match commaCollect fuel c2 r2 [key] with
            | .error e => .error e
            | .ok (keys, c3, r3) =>
              match (if isColon c3.token then parserNext r3 else (.ok c3, r3)) with
              | (.error e, _) => .error e
              | (.ok c4, r4) =>
                match c4.token with
                | .String u =>
                  match unquote_string u with
                  | .error r => .error ⟨c4.line, c4.col, r⟩
                  | .ok sv =>
                    match parserNext r4 with
                    | (.error e, _) => .error e
                    | (.ok c5, r5) =>
                      parseLoop fuel c5 r5 indent (insertAll map keys (.String sv))
                | .Number n =>
                  match parserNext r4 with
                  | (.error e, _) => .error e
                  | (.ok c5, r5) =>
                    parseLoop fuel c5 r5 indent (insertAll map keys (.Number n))
                | .Bool b =>
                  match parserNext r4 with
                  | (.error e, _) => .error e
                  | (.ok c5, r5) =>
                    parseLoop fuel c5 r5 indent (insertAll map keys (.Boolean b))
                | _ =>
                  if isColon c3.token then
                    match parseLoop fuel c4 r4 (indent + 2) [] with
                    | .error e => .error e
                    | .ok (v, c5, r5) =>
                      match c5.token with
                      | .Indent _ =>
                        if indent = 0 then .ok (.Object (insertAll map keys v), c5, r5)
                        else parseLoop fuel c5 r5 indent (insertAll map keys v)
                      | _ => parseLoop fuel c5 r5 indent (insertAll map keys v)
                  else .error ⟨c4.line, c4.col, unexpected_token_string c4.token⟩
    | _ => .error ⟨cur.line, cur.col, unexpected_token_string cur.token⟩

/-- The part of parse after tokenization: point the cursor at the first token
(`parser.next()?`) and run the level-0 loop.  The fuel bound dominates the
real recursion depth and iteration count, both limited by the token count. -/
def parseTokens (tokens : List TokenWrapper) : Except Error Value :=
  match parserNext tokens with
  | (.error e, _) => .error e
  | (.ok c0, r0) =>
    match parseLoop (2 * tokens.length + 8) c0 r0 0 [] with
    | .error e => .error e
    | .ok (v, _, _) => .ok v

/-- parse of parser.rs: tokenize, surface lexer errors unchanged, then parse
the token sequence from indent 0. -/
def parse (input : List Nat) : Except Error Value :=
  match tokenize input with
  | .error e => .error ⟨e.line, e.col, e.reason⟩
  | .ok tokens => parseTokens tokens

/-! ## Statement vocabulary for the claims -/

/-- Byte index `i` lies in the consumed range of a ranged token. -/
def inTokRange (i : Nat) (a : RangedToken) : Bool :=
  decide (a.2.1 ≤ i) && decide (i < a.2.1 + a.2.2)

/-- The partition property exactly as claimed: every byte of an input of length
`n` falls in the consumed range of exactly one token.  (`Eof` consumes zero
bytes, so its empty range never counts.) -/
def coversExactly (n : Nat) (anns : List RangedToken) : Prop :=
  ∀ i < n, anns.countP (inTokRange i) = 1

/-- Reversed decimal digits (as ASCII bytes) of `n`; the fuel argument only
bounds the recursion and `n` itself is always enough of it. -/
def natDigitsRevGo : Nat → Nat → List Nat
  | 0, _ => []
  | fuel + 1, n => if n = 0 then [] else (n % 10 + 48) :: natDigitsRevGo fuel (n / 10)

/-- The ASCII decimal representation of a natural number, used to state the
version-gate claim for an arbitrary `N`. -/
def natDecimalBytes (n : Nat) : List Nat :=
  if n = 0 then [48] else (natDigitsRevGo n n).reverse

/-- Standard UTF-8 encoding of a Unicode scalar value (what Rust produces when
it writes a `char` into a `String`/byte buffer). -/
def utf8EncodeCp (n : Nat) : List Nat :=
  if n < 0x80 then [n]
  else if n < 0x800 then [0xC0 + n / 64, 0x80 + n % 64]
  else if n < 0x10000 then [0xE0 + n / 4096, 0x80 + (n / 64) % 64, 0x80 + n % 64]
  else [0xF0 + n / 262144, 0x80 + (n / 4096) % 64, 0x80 + (n / 64) % 64, 0x80 + n % 64]

/-- UTF-8 bytes of a list of characters. -/
def utf8EncodeChars (cs : List Char) : List Nat :=
  (cs.map (fun c => utf8EncodeCp c.toNat)).flatten

/-- Modelled from the spec: the repository contains no JSON encoder, so the
"encoding as a JSON-quoted literal" half of the quote round-trip claim is
modelled from the spec's words — each character of the escapable set
`" \ / \b \f \n \r \t` is written as its two-character escape sequence and
every other scalar value is written as itself. -/
def jsonEscapeChar (c : Char) : List Char :=
  if c = '"' then ['\\', '"']
  else if c = '\\' then ['\\', '\\']
  else if c = '/' then ['\\', '/']
  else if c = Char.ofNat 8 then ['\\', 'b']
  else if c = Char.ofNat 12 then ['\\', 'f']
  else if c = '\n' then ['\\', 'n']
  else if c = '\r' then ['\\', 'r']
  else if c = '\t' then ['\\', 't']
  else [c]

/-- Modelled from the spec: a JSON-quoted literal for the character list `s` —
an opening quote, the escaped characters, a closing quote. -/
def jsonQuote (s : List Char) : List Char :=
  '"' :: (s.map jsonEscapeChar).flatten ++ ['"']

/-- The byte form of the JSON-quoted literal, as it would sit in a lockfile. -/
def jsonQuoteBytes (s : List Char) : List Nat :=
  utf8EncodeChars (jsonQuote s)

/-- The input of the claim about `x 1`: bytes `x`, space, `1`. -/
def c1input : List Nat := [120, 32, 49]

/-- The input `a b`: two bare strings separated by a mid-line space. -/
def c5input : List Nat := [97, 32, 98]

/-- The ranged tokens the lexer produces for `a b`. -/
def c5anns : List RangedToken :=
  [(⟨0, 1, .String [97]⟩, 0, 1), (⟨2, 1, .String [98]⟩, 2, 1), (⟨3, 1, .EOF⟩, 3, 0)]

/-- The input `# yarn lockfile v2147483648`: a version-header comment whose
number exceeds the `i32` range. -/
def c6overflowInput : List Nat :=
  [35, 32] ++ VERSION_LINE_TEXT ++ [50, 49, 52, 55, 52, 56, 51, 54, 52, 56]

/-- The input `a:\n  b: 1\n  # yarn lockfile v2\nc: 3\n`: a well-formed
lockfile whose `v2` version comment is skipped by an error-discarding cursor
advance. -/
def c6swallowInput : List Nat :=
  [97, 58, 10, 32, 32, 98, 58, 32, 49, 10, 32, 32, 35, 32] ++ VERSION_LINE_TEXT ++
    [50, 10, 99, 58, 32, 51, 10]

/-- The input `# yarn lockfile v2`. -/
def c7input : List Nat := [35, 32] ++ VERSION_LINE_TEXT ++ [50]

/-- The input `"a", "b": 1` followed by a line feed. -/
def c8input : List Nat := [34, 97, 34, 44, 32, 34, 98, 34, 58, 32, 49, 10]

/-! ## Claim theorems: concrete evaluations -/

/-- Claim C1, counterexample.  On the bytes `x 1` parse does fail, but with the
lexer's `Number parse failed` error (at line 1, column 2), not with the
`Unexpected token Number` parse error the claim names: `parse_number` leaves
`end = 0` when the digit run reaches the end of the input, so the empty slice
fails `str::parse::<i64>`. -/
theorem c1_counterexample :
    parse c1input = .error ⟨1, 2, "Number parse failed"⟩ ∧
    "Number parse failed" ≠ "Unexpected token Number" :=
  ⟨rfl, by decide⟩

/-- Claim C1, amended: parsing the bytes `x 1` fails with the lexer error
`Number parse failed` at line 1, column 2 (the position of the digit), which
parse surfaces unchanged; no `Unexpected token Number` error is produced. -/
theorem c1_amended : parse c1input = .error ⟨1, 2, "Number parse failed"⟩ := rfl

/-- Claim C2: the code disagrees with the claim on digit runs.  The lone digit
`1` is an in-range digit whose run reaches the end of the input, and tokenize
fails with `Number parse failed` although no `i64` overflow occurs (the
claim's only permitted failure); the digit `9` is excluded from the lexer's
digit class by the exclusive range `(b'0'..b'9')` and falls through to the
`Invalid` arm, which consumes nothing, so tokenize fails with the zero-width
`infinite` error; an interior run such as `10` followed by a newline does
tokenize as the claim describes. -/
theorem c2_code_eval :
    tokenize [49] = .error ⟨1, 0, "Number parse failed"⟩ ∧
    tokenize [57] = .error ⟨1, 0, "infinite"⟩ ∧
    tokenize [49, 48, 10] =
      .ok [⟨0, 1, .Number 10⟩, ⟨2, 1, .NewLine⟩, ⟨0, 2, .EOF⟩] :=
  ⟨rfl, rfl, rfl⟩

/-- Claim C3: on the byte `!` — which matches none of the other lexical
classes — the Rust `Invalid` arm pushes the token but never increments `chop`,
so the defensive zero-width-token check fires and tokenize fails with the
`infinite` error instead of consuming one byte and continuing. -/
theorem c3_code_eval : tokenize [33] = .error ⟨1, 0, "infinite"⟩ := rfl

/-- Claim C4: the letters `z` and `Z` are excluded from the lexer's letter
class by the exclusive ranges `(b'a'..b'z')` and `(b'A'..b'Z')`, fall through
to the `Invalid` arm and hit the zero-width `infinite` error, while an in-range
letter such as `y` is measured to the next delimiter exactly as claimed. -/
theorem c4_code_eval :
    tokenize [122] = .error ⟨1, 0, "infinite"⟩ ∧
    tokenize [90] = .error ⟨1, 0, "infinite"⟩ ∧
    tokenize [121, 58] = .ok [⟨0, 1, .String [121]⟩, ⟨1, 1, .Colon⟩, ⟨2, 1, .EOF⟩] :=
  ⟨rfl, rfl, rfl⟩

/-- Claim C5, counterexample.  Tokenizing `a b` succeeds, but the mid-line
space byte at index 1 is consumed silently between the two `String` tokens and
belongs to the range of no token, so the token ranges do not partition the
input. -/
theorem c5_counterexample :
    tokenizeRanges c5input = .ok c5anns ∧ ¬ coversExactly c5input.length c5anns :=
  ⟨rfl, by unfold coversExactly; decide⟩

/-- Claim C6, counterexample.  Two version comments with `N > 1` that do not
fail parse: in `# yarn lockfile v2147483648` the number overflows `i32`, so
`version_match` returns `None` and the comment is discarded like an ordinary
one; in `a:\n  b: 1\n  # yarn lockfile v2\nc: 3\n` the `v2` comment is skipped
by the error-discarding advance `_ = self.next()` that follows an
indent-at-our-level token, so its `Unsupported lockfile version` error is
swallowed and parsing completes. -/
theorem c6_counterexample :
    parse c6overflowInput = .ok (.Object []) ∧
    parse c6swallowInput =
      .ok (.Object [("a", .Object [("b", .Number 1)]), ("c", .Number 3)]) :=
  ⟨rfl, rfl⟩

/-- Claim C7, counterexample.  For `# yarn lockfile v2` the triggering comment
token sits at line 1, column 0, but the `Unsupported lockfile version` error is
built with `line: 0, col: 0`, so the error does not carry the position of the
token that triggered it. -/
theorem c7_counterexample :
    tokenize c7input =
      .ok [⟨0, 1, .Comment ([32] ++ VERSION_LINE_TEXT ++ [50])⟩, ⟨18, 1, .EOF⟩] ∧
    parse c7input = .error ⟨0, 0, "Unsupported lockfile version"⟩ ∧
    (0 : Int) ≠ 1 :=
  ⟨rfl, rfl, by decide⟩

/-- Claim C8: the multi-key input `"a", "b": 1\n` parses to an object with
exactly the keys `a` and `b`, both bound to the numeric value 1 (the `f64`
value `1.0` of the source, held exactly as an integer in this embedding). -/
theorem c8_multikey :
    parse c8input = .ok (.Object [("a", .Number 1), ("b", .Number 1)]) := rfl

/-! ## Decimal representations, for the amended version-gate claim -/

theorem val10_append (xs : List Nat) (d : Nat) :
    val10 (xs ++ [d]) = val10 xs * 10 + ((d : Int) - 48) := by
  simp [val10, List.foldl_append]

theorem natDigitsRevGo_spec : ∀ fuel n, n ≤ fuel →
    (∀ b ∈ natDigitsRevGo fuel n, isDigitByte b = true) ∧
    val10 (natDigitsRevGo fuel n).reverse = n := by
  intro fuel
  induction fuel with
  | zero =>
    intro n hn
    have : n = 0 := by omega
    subst this
    simp [natDigitsRevGo, val10]
  | succ f ih =>
    intro n hn
    by_cases h0 : n = 0
    · subst h0; simp [natDigitsRevGo, val10]
    · have hlt : n / 10 < n := Nat.div_lt_self (Nat.pos_of_ne_zero h0) (by norm_num)
      obtain ⟨ihd, ihv⟩ := ih (n / 10) (by omega)
      refine ⟨?_, ?_⟩
      · intro b hb
        simp only [natDigitsRevGo, if_neg h0, List.mem_cons] at hb
        rcases hb with hb | hb
        · subst hb
          have : n % 10 < 10 := Nat.mod_lt _ (by norm_num)
          simp [isDigitByte]
          omega
        · exact ihd b hb
      · simp only [natDigitsRevGo, if_neg h0, List.reverse_cons]
        rw [val10_append, ihv]
        have h2 : n % 10 < 10 := Nat.mod_lt _ (by norm_num)
        have h3 := Nat.div_add_mod n 10
        push_cast
        omega

theorem natDecimalBytes_digits (n : Nat) :
    ∀ b ∈ natDecimalBytes n, isDigitByte b = true := by
  intro b hb
  by_cases h0 : n = 0
  · subst h0; simp [natDecimalBytes] at hb; subst hb; decide
  · simp only [natDecimalBytes, if_neg h0, List.mem_reverse] at hb
    exact (natDigitsRevGo_spec n n le_rfl).1 b hb

theorem val10_natDecimalBytes (n : Nat) : val10 (natDecimalBytes n) = n := by
  by_cases h0 : n = 0
  · subst h0; simp [natDecimalBytes, val10]
  · simp only [natDecimalBytes, if_neg h0]
    exact (natDigitsRevGo_spec n n le_rfl).2

theorem natDecimalBytes_ne_nil (n : Nat) : natDecimalBytes n ≠ [] := by
  by_cases h0 : n = 0
  · subst h0; simp [natDecimalBytes]
  · simp only [natDecimalBytes, if_neg h0]
    intro h
    have := (natDigitsRevGo_spec n n le_rfl).2
    rw [show natDigitsRevGo n n = [] from by simpa using congrArg List.reverse h] at this
    simp [val10] at this
    omega

theorem parse_i32_natDecimalBytes (n : Nat) (hmax : n ≤ 2147483647) :
    parse_i32 (natDecimalBytes n) = some (n : Int) := by
  obtain ⟨b, rest, hbr⟩ : ∃ b rest, natDecimalBytes n = b :: rest := by
    cases hnd : natDecimalBytes n with
    | nil => exact absurd hnd (natDecimalBytes_ne_nil n)
    | cons b rest => exact ⟨b, rest, rfl⟩
  have hdig : ∀ x ∈ b :: rest, isDigitByte x = true := by
    rw [← hbr]; exact natDecimalBytes_digits n
  have hb : 48 ≤ b ∧ b ≤ 57 := by
    have := hdig b (List.mem_cons_self b rest)
    simpa [isDigitByte] using this
  have hval : val10 (b :: rest) = n := by rw [← hbr]; exact val10_natDecimalBytes n
  have hall : (b :: rest).all isDigitByte = true := List.all_eq_true.mpr hdig
  rw [hbr]
  simp only [parse_i32]
  rw [if_neg (show ¬ (b = 43 || b = 45) = true by simp; omega)]
  have hneg : (b == 45) = false := by simp; omega
  rw [hneg]
  simp only [parseDigits]
  rw [if_neg (by simp), if_neg (by simp [hall]), if_neg (by simp)]
  rw [hval]
  rw [if_neg (by omega : ¬ (n : Int) > 2147483647)]

/-- Claim C6, amended: during a cursor advance, a comment whose (ASCII-)trimmed
text is `yarn lockfile v1` or `yarn lockfile v` (no number) is silently
discarded — the advance behaves exactly as if the comment were absent — and a
comment whose trimmed text is `yarn lockfile vN` with `2 ≤ N` *within the i32
range* makes that advance return the `Unsupported lockfile version` error.
(The counterexample shows the two corrections forced on the original claim: an
`N` beyond the i32 range fails the numeric parse and the comment is discarded
like an ordinary one, and call sites that discard the advance's result swallow
the error, so parse as a whole fails only where the advance's result is
propagated.) -/
theorem c6_amended :
    (∀ (cm : List Nat) (c l : Int) (rest : List TokenWrapper),
      asciiTrim cm = VERSION_LINE_TEXT ++ [49] →
      parserNext (⟨c, l, .Comment cm⟩ :: rest) = parserNext rest) ∧
    (∀ (cm : List Nat) (c l : Int) (rest : List TokenWrapper) (n : Nat),
      asciiTrim cm = VERSION_LINE_TEXT ++ natDecimalBytes n → 2 ≤ n → n ≤ 2147483647 →
      parserNext (⟨c, l, .Comment cm⟩ :: rest) =
        (.error ⟨0, 0, "Unsupported lockfile version"⟩, rest)) ∧
    (∀ (cm : List Nat) (c l : Int) (rest : List TokenWrapper),
      asciiTrim cm = VERSION_LINE_TEXT →
      parserNext (⟨c, l, .Comment cm⟩ :: rest) = parserNext rest) := by
  refine ⟨?_, ?_, ?_⟩
  · intro cm c l rest h
    have hv : version_match cm = some 1 := by
      simp only [version_match, h]
      decide
    simp [parserNext, hv]
  · intro cm c l rest n h h2 hmax
    have hpre : VERSION_LINE_TEXT.isPrefixOf (VERSION_LINE_TEXT ++ natDecimalBytes n) = true := by
      rw [List.isPrefixOf_iff_prefix]
      exact List.prefix_append _ _
    have hv : version_match cm = some (n : Int) := by
      simp only [version_match, h, hpre, if_true, List.drop_left,
        parse_i32_natDecimalBytes n hmax]
    have hgt : (n : Int) > 1 := by exact_mod_cast h2
    simp [parserNext, hv, hgt]
  · intro cm c l rest h
    have hv : version_match cm = none := by
      simp only [version_match, h]
      decide
    simp [parserNext, hv]

/-- Witness for the amended version-gate claim, at the comment
` yarn lockfile v2` (as the lexer produces it) with `N = 2` and with the `v1`
and numberless variants. -/
theorem c6_witness :
    parserNext [⟨0, 1, .Comment ([32] ++ VERSION_LINE_TEXT ++ [50])⟩] =
      (.error ⟨0, 0, "Unsupported lockfile version"⟩, []) ∧
    parserNext [⟨0, 1, .Comment ([32] ++ VERSION_LINE_TEXT ++ [49])⟩, ⟨0, 1, .EOF⟩] =
      parserNext [⟨0, 1, .EOF⟩] ∧
    parserNext [⟨0, 1, .Comment ([32] ++ VERSION_LINE_TEXT)⟩, ⟨0, 1, .EOF⟩] =
      parserNext [⟨0, 1, .EOF⟩] :=
  ⟨c6_amended.2.1 ([32] ++ VERSION_LINE_TEXT ++ [50]) 0 1 [] 2 (by decide) (by decide)
      (by decide),
    c6_amended.1 ([32] ++ VERSION_LINE_TEXT ++ [49]) 0 1 [⟨0, 1, .EOF⟩] (by decide),
    c6_amended.2.2 ([32] ++ VERSION_LINE_TEXT) 0 1 [⟨0, 1, .EOF⟩] (by decide)⟩

/-- Claim C10: whenever the same key token (with any positions) heads two
well-formed scalar entries at the top level, parse succeeds and the resulting
object binds the key to the value of the last entry; the earlier value is
silently overwritten by `map.insert`, not reported. -/
theorem c10_last_wins (k : List Nat) (key : String) (a b : Int)
    (c1 l1 c2 l2 c3 l3 c4 l4 c5 l5 c6 l6 c7 l7 c8 l8 c9 l9 : Int)
    (hk : unquote_string k = .ok key) (hne : key ≠ "") :
    parseTokens [⟨c1, l1, .String k⟩, ⟨c2, l2, .Colon⟩, ⟨c3, l3, .Number a⟩,
      ⟨c4, l4, .NewLine⟩, ⟨c5, l5, .String k⟩, ⟨c6, l6, .Colon⟩, ⟨c7, l7, .Number b⟩,
      ⟨c8, l8, .NewLine⟩, ⟨c9, l9, .EOF⟩] = .ok (.Object [(key, .Number b)]) := by
  simp [parseTokens, parserNext, parseLoop, commaCollect, isColon, insertAll, mapInsert,
    hk, hne]

/-- Witness for the duplicate-key claim: the token form of `a: 1\na: 2\n`
parses to an object binding `a` to 2. -/
theorem c10_witness :
    parseTokens [⟨0, 1, .String [97]⟩, ⟨1, 1, .Colon⟩, ⟨3, 1, .Number 1⟩, ⟨4, 1, .NewLine⟩,
      ⟨0, 2, .String [97]⟩, ⟨1, 2, .Colon⟩, ⟨3, 2, .Number 2⟩, ⟨4, 2, .NewLine⟩,
      ⟨0, 3, .EOF⟩] = .ok (.Object [("a", .Number 2)]) :=
  c10_last_wins [97] "a" 1 2 0 1 1 1 3 1 4 1 0 2 1 2 3 2 4 2 0 3 rfl (by decide)

/-! ## The partition invariant of the lexer -/

theorem tokStep_skip {ch : Nat} {rest : List Nat} {lnl : Bool}
    (h : tokStep (ch :: rest) lnl = .skip) : ch = 32 := by
  by_cases h32 : ch = 32
  · exact h32
  · exfalso
    simp only [tokStep, h32, if_false] at h
    repeat' split at h
    all_goals exact StepOut.noConfusion h

theorem tokLoop_start_le : ∀ (fuel : Nat) (input : List Nat) (pos : Nat) (line col : Int)
    (lnl : Bool) (anns : List RangedToken),
    tokLoop fuel input pos line col lnl = .ok anns → ∀ a ∈ anns, pos ≤ a.2.1 := by
  intro fuel
  induction fuel with
  | zero =>
    intro input pos line col lnl anns h a ha
    cases input with
    | nil =>
      simp only [tokLoop, Except.ok.injEq] at h
      subst h
      simp only [List.mem_singleton] at ha
      subst ha
      exact le_rfl
    | cons ch rest => simp [tokLoop] at h
  | succ f ih =>
    intro input pos line col lnl anns h a ha
    cases input with
    | nil =>
      simp only [tokLoop, Except.ok.injEq] at h
      subst h
      simp only [List.mem_singleton] at ha
      subst ha
      exact le_rfl
    | cons ch rest =>
      simp only [tokLoop] at h
      split at h
      · exact absurd h (by simp)
      · split at h
        · rename_i anns2 hrec
          simp only [Except.ok.injEq] at h
          subst h
          rcases List.mem_cons.mp ha with ha | ha
          · subst ha; exact le_rfl
          · have := ih _ _ _ _ _ _ hrec a ha
            omega
        · exact absurd h (by simp)
      · have := ih _ _ _ _ _ _ h a ha
        omega
      · split at h
        · exact absurd h (by simp)
        · split at h
          · rename_i anns2 hrec
            simp only [Except.ok.injEq] at h
            subst h
            rcases List.mem_cons.mp ha with ha | ha
            · subst ha; exact le_rfl
            · have := ih _ _ _ _ _ _ hrec a ha
              omega
          · exact absurd h (by simp)

theorem countP_eq_zero_of_start_le {anns : List RangedToken} {i bound : Nat}
    (hlt : i < bound) (hstart : ∀ a ∈ anns, bound ≤ a.2.1) :
    anns.countP (inTokRange i) = 0 := by
  rw [List.countP_eq_zero]
  intro a ha
  have := hstart a ha
  simp only [inTokRange, Bool.and_eq_true, decide_eq_true_eq]
  omega

theorem tokLoop_cover : ∀ (fuel : Nat) (input : List Nat) (pos : Nat) (line col : Int)
    (lnl : Bool) (anns : List RangedToken),
    tokLoop fuel input pos line col lnl = .ok anns →
    ∀ i, pos ≤ i → i < pos + input.length →
      anns.countP (inTokRange i) = 1 ∨
      (input.getD (i - pos) 0 = 32 ∧ anns.countP (inTokRange i) = 0) := by
  intro fuel
  induction fuel with
  | zero =>
    intro input pos line col lnl anns h i hi hlt
    cases input with
    | nil => simp only [List.length_nil] at hlt; omega
    | cons ch rest => simp [tokLoop] at h
  | succ f ih =>
    intro input pos line col lnl anns h i hi hlt
    cases input with
    | nil => simp only [List.length_nil] at hlt; omega
    | cons ch rest =>
      simp only [tokLoop] at h
      split at h
      · exact absurd h (by simp)
      · rename_i chop hstep
        split at h
        · rename_i anns2 hrec
          simp only [Except.ok.injEq] at h
          subst h
          by_cases hin : i < pos + chop
          · left
            rw [List.countP_cons,
              countP_eq_zero_of_start_le hin (tokLoop_start_le _ _ _ _ _ _ _ hrec)]
            simp [inTokRange, hi, hin]
          · have hrecc := ih _ _ _ _ _ _ hrec i (by omega)
              (by simp only [List.length_drop]; omega)
            rw [List.countP_cons]
            have hhead : inTokRange i (⟨col, line, Token.NewLine⟩, pos, chop) = false := by
              simp only [inTokRange]
              simp only [Bool.and_eq_false_iff, decide_eq_false_iff_not]
              right
              omega
            rw [hhead]
            simp only [Bool.false_eq_true, if_false, Nat.add_zero]
            rcases hrecc with h1 | ⟨h2, h3⟩
            · exact Or.inl h1
            · refine Or.inr ⟨?_, h3⟩
              rw [List.getD_eq_getElem?_getD, List.getElem?_drop,
                show chop + (i - (pos + chop)) = i - pos by omega] at h2
              rw [List.getD_eq_getElem?_getD]
              exact h2
        · exact absurd h (by simp)
      · rename_i hstep
        have hch : ch = 32 := tokStep_skip hstep
        by_cases hieq : i = pos
        · subst hieq
          refine Or.inr ⟨by simp [hch], ?_⟩
          exact countP_eq_zero_of_start_le (by omega) (tokLoop_start_le _ _ _ _ _ _ _ h)
        · have hrecc := ih _ _ _ _ _ _ h i (by omega)
            (by simp only [List.length_cons] at hlt ⊢; omega)
          rcases hrecc with h1 | ⟨h2, h3⟩
          · exact Or.inl h1
          · refine Or.inr ⟨?_, h3⟩
            rw [show i - pos = (i - (pos + 1)) + 1 by omega, List.getD_cons_succ]
            exact h2
      · rename_i t chop hstep
        split at h
        · exact absurd h (by simp)
        · split at h
          · rename_i anns2 hrec
            simp only [Except.ok.injEq] at h
            subst h
            by_cases hin : i < pos + chop
            · left
              rw [List.countP_cons,
                countP_eq_zero_of_start_le hin (tokLoop_start_le _ _ _ _ _ _ _ hrec)]
              simp [inTokRange, hi, hin]
            · have hrecc := ih _ _ _ _ _ _ hrec i (by omega)
                (by simp only [List.length_drop]; omega)
              rw [List.countP_cons]
              have hhead : inTokRange i (⟨col, line, t⟩, pos, chop) = false := by
                simp only [inTokRange]
                simp only [Bool.and_eq_false_iff, decide_eq_false_iff_not]
                right
                omega
              rw [hhead]
              simp only [Bool.false_eq_true, if_false, Nat.add_zero]
              rcases hrecc with h1 | ⟨h2, h3⟩
              · exact Or.inl h1
              · refine Or.inr ⟨?_, h3⟩
                rw [List.getD_eq_getElem?_getD, List.getElem?_drop,
                  show chop + (i - (pos + chop)) = i - pos by omega] at h2
                rw [List.getD_eq_getElem?_getD]
                exact h2
          · exact absurd h (by simp)

/-- Claim C5, amended: whenever tokenize succeeds, every input byte is either
inside the consumed range of exactly one emitted token (ranges never overlap),
or is a space byte consumed silently as inter-token whitespace and belongs to
no token's range.  (`Eof` consumes zero bytes, so it never counts.) -/
theorem c5_amended (input : List Nat) (anns : List RangedToken)
    (h : tokenizeRanges input = .ok anns) :
    ∀ i < input.length,
      anns.countP (inTokRange i) = 1 ∨
      (input.getD i 0 = 32 ∧ anns.countP (inTokRange i) = 0) := by
  intro i hi
  have := tokLoop_cover (input.length + 1) input 0 1 0 true anns h i (Nat.zero_le i)
    (by omega)
  simpa using this

/-- Witness for the amended partition claim: at byte 1 of `a b` (the silently
consumed mid-line space) the right disjunct holds. -/
theorem c5_witness :
    c5anns.countP (inTokRange 1) = 1 ∨
    (c5input.getD 1 0 = 32 ∧ c5anns.countP (inTokRange 1) = 0) :=
  c5_amended c5input c5anns rfl 1 (by decide)

/-! ## Error positions (amended claim C7) -/

theorem mqs_go_err : ∀ (fuel : Nat) (input : List Nat) (i : Nat) (r : String),
    mqs_go input i fuel = .error r → r = "Unexpected EOF" := by
  intro fuel
  induction fuel with
  | zero =>
    intro input i r h
    simp only [mqs_go, Except.error.injEq] at h
    exact h.symm
  | succ f ih =>
    intro input i r h
    simp only [mqs_go] at h
    split at h
    · split at h
      · split at h
        · exact absurd h (by simp)
        · exact ih _ _ _ h
      · exact ih _ _ _ h
    · simp only [Except.error.injEq] at h
      exact h.symm

theorem parse_number_err {input : List Nat} {r : String}
    (h : parse_number input = .error r) : r = "Number parse failed" := by
  simp only [parse_number] at h
  split at h
  · exact absurd h (by simp)
  · simp only [Except.error.injEq] at h
    exact h.symm

theorem tokStep_err_reason {ch : Nat} {rest : List Nat} {lnl : Bool} {r : String}
    (h : tokStep (ch :: rest) lnl = .err r) :
    r = "Invalid number of spaces" ∨ r = "Unexpected EOF" ∨ r = "Number parse failed" := by
  simp only [tokStep] at h
  by_cases h1 : (decide (ch = 13) || decide (ch = 10)) = true
  · rw [if_pos h1] at h; exact absurd h (by simp)
  · rw [if_neg h1] at h
    by_cases h2 : ch = 35
    · rw [if_pos h2] at h; exact absurd h (by simp)
    · rw [if_neg h2] at h
      by_cases h3 : ch = 32
      · rw [if_pos h3] at h
        by_cases h4 : lnl = true
        · rw [if_pos h4] at h
          by_cases h5 : measure_indent_len (ch :: rest) % 2 ≠ 0
          · rw [if_pos h5] at h
            simp only [StepOut.err.injEq] at h
            exact Or.inl h.symm
          · rw [if_neg h5] at h; exact absurd h (by simp)
        · rw [if_neg h4] at h; exact absurd h (by simp)
      · rw [if_neg h3] at h
        by_cases h6 : ch = 34
        · rw [if_pos h6] at h
          cases hq : measure_quoted_string (ch :: rest) with
          | ok len => simp only [hq] at h; exact absurd h (by simp)
          | error r0 =>
            simp only [hq, StepOut.err.injEq] at h
            rw [← h]
            exact Or.inr (Or.inl (mqs_go_err _ _ _ _ hq))
        · rw [if_neg h6] at h
          by_cases h7 : ch = 58
          · rw [if_pos h7] at h; exact absurd h (by simp)
          · rw [if_neg h7] at h
            by_cases h8 : ch = 44
            · rw [if_pos h8] at h; exact absurd h (by simp)
            · rw [if_neg h8] at h
              by_cases h9 : prefix_matches (ch :: rest) trueBytes = true
              · rw [if_pos h9] at h; exact absurd h (by simp)
              · rw [if_neg h9] at h
                by_cases h10 : prefix_matches (ch :: rest) falseBytes = true
                · rw [if_pos h10] at h; exact absurd h (by simp)
                · rw [if_neg h10] at h
                  by_cases h11 : (decide (48 ≤ ch) && decide (ch < 57)) = true
                  · rw [if_pos h11] at h
                    cases hn : parse_number (ch :: rest) with
                    | ok p =>
                      obtain ⟨n, len⟩ := p
                      simp only [hn] at h
                      exact absurd h (by simp)
                    | error r0 =>
                      simp only [hn, StepOut.err.injEq] at h
                      rw [← h]
                      exact Or.inr (Or.inr (parse_number_err hn))
                  · rw [if_neg h11] at h
                    by_cases h12 : (decide (97 ≤ ch) && decide (ch < 122)
                        || decide (65 ≤ ch) && decide (ch < 90) || decide (ch = 47)
                        || decide (ch = 46) || decide (ch = 95) || decide (ch = 45)) = true
                    · rw [if_pos h12] at h; exact absurd h (by simp)
                    · rw [if_neg h12] at h; exact absurd h (by simp)

theorem tokLoop_err_reason : ∀ (fuel : Nat) (input : List Nat) (pos : Nat) (line col : Int)
    (lnl : Bool) (e : LexerError),
    tokLoop fuel input pos line col lnl = .error e →
    e.reason = "Invalid number of spaces" ∨ e.reason = "Unexpected EOF" ∨
    e.reason = "Number parse failed" ∨ e.reason = "infinite" ∨
    e.reason = "lexer fuel exhausted" := by
  intro fuel
  induction fuel with
  | zero =>
    intro input pos line col lnl e h
    cases input with
    | nil => exact absurd h (by simp [tokLoop])
    | cons ch rest =>
      simp only [tokLoop, Except.error.injEq] at h
      rw [← h]
      simp
  | succ f ih =>
    intro input pos line col lnl e h
    cases input with
    | nil => exact absurd h (by simp [tokLoop])
    | cons ch rest =>
      simp only [tokLoop] at h
      split at h
      · rename_i r hstep
        simp only [Except.error.injEq] at h
        rw [← h]
        rcases tokStep_err_reason hstep with h1 | h1 | h1 <;> simp [h1]
      · split at h
        · exact absurd h (by simp)
        · rename_i e2 hrec
          simp only [Except.error.injEq] at h
          rw [← h]
          exact ih _ _ _ _ _ _ hrec
      · exact ih _ _ _ _ _ _ h
      · split at h
        · simp only [Except.error.injEq] at h
          rw [← h]
          simp
        · split at h
          · exact absurd h (by simp)
          · rename_i e2 hrec
            simp only [Except.error.injEq] at h
            rw [← h]
            exact ih _ _ _ _ _ _ hrec

theorem tokenize_err_reason {input : List Nat} {e : LexerError}
    (h : tokenize input = .error e) :
    e.reason = "Invalid number of spaces" ∨ e.reason = "Unexpected EOF" ∨
    e.reason = "Number parse failed" ∨ e.reason = "infinite" ∨
    e.reason = "lexer fuel exhausted" := by
  simp only [tokenize, tokenizeRanges] at h
  cases hr : tokLoop (input.length + 1) input 0 1 0 true with
  | ok anns => rw [hr] at h; exact absurd h (by simp [Except.map])
  | error e2 =>
    rw [hr] at h
    simp only [Except.map, Except.error.injEq] at h
    rw [← h]
    exact tokLoop_err_reason _ _ _ _ _ _ _ hr

theorem parserNext_err : ∀ (l : List TokenWrapper) (e : Error) (rest : List TokenWrapper),
    parserNext l = (.error e, rest) → e.line = 0 ∧ e.col = 0 := by
  intro l
  induction l with
  | nil =>
    intro e rest h
    simp only [parserNext, Prod.mk.injEq, Except.error.injEq] at h
    rw [← h.1]
    exact ⟨rfl, rfl⟩
  | cons tk l2 ih =>
    intro e rest h
    simp only [parserNext] at h
    split at h
    · split at h
      · exact ih _ _ h
      · split at h
        · simp only [Prod.mk.injEq, Except.error.injEq] at h
          rw [← h.1]
          exact ⟨rfl, rfl⟩
        · exact ih _ _ h
    all_goals
      simp only [Prod.mk.injEq] at h
      exact absurd h.1 (by simp)

theorem unquote_string_err {s : List Nat} {r : String}
    (h : unquote_string s = .error r) :
    r = "Invalid JSON string" ∨ r = "Invalid UTF-8 string" := by
  simp only [unquote_string] at h
  split at h
  · split at h
    · exact absurd h (by simp)
    · simp only [Except.error.injEq] at h
      exact Or.inl h.symm
  · split at h
    · exact absurd h (by simp)
    · simp only [Except.error.injEq] at h
      exact Or.inr h.symm

/-- The two parse errors the code builds without a position. -/
def zeroPosReason (r : String) : Prop :=
  r = "Unsupported lockfile version" ∨ r = "Unexpected end of input"

theorem unexpected_token_string_not_zeroPos (t : Token) :
    ¬ zeroPosReason (unexpected_token_string t) := by
  cases t <;> (simp only [unexpected_token_string, zeroPosReason]; decide)

theorem commaCollect_err : ∀ (fuel : Nat) (cur : TokenWrapper) (rest : List TokenWrapper)
    (keys : List String) (e : Error),
    commaCollect fuel cur rest keys = .error e → zeroPosReason e.reason →
    e.line = 0 ∧ e.col = 0 := by
  intro fuel
  induction fuel with
  | zero =>
    intro cur rest keys e h hp
    simp only [commaCollect, Except.error.injEq] at h
    rw [← h]
    exact ⟨rfl, rfl⟩
  | succ f ih =>
    intro cur rest keys e h hp
    simp only [commaCollect] at h
    split at h
    · split at h
      · split at h
        · split at h
          · rename_i r hu
            simp only [Except.error.injEq] at h
            rw [← h] at hp
            rcases unquote_string_err hu with h1 | h1 <;>
              (subst h1; simp [zeroPosReason] at hp)
          · split at h
            · simp only [Except.error.injEq] at h
              rw [← h] at hp
              simp [zeroPosReason] at hp
            · split at h
              · rename_i e2 r2 hnext
                simp only [Except.error.injEq] at h
                rw [← h]
                exact parserNext_err _ _ _ hnext
              · exact ih _ _ _ _ h hp
        · simp only [Except.error.injEq] at h
          rw [← h] at hp
          simp [zeroPosReason] at hp
      · simp only [Except.error.injEq] at h
        rw [← h] at hp
        simp [zeroPosReason] at hp
    · exact absurd h (by simp)

theorem parseLoop_err : ∀ (fuel : Nat) (cur : TokenWrapper) (rest : List TokenWrapper)
    (indent : Nat) (map : List (String × Value)) (e : Error),
    parseLoop fuel cur rest indent map = .error e → zeroPosReason e.reason →
    e.line = 0 ∧ e.col = 0 := by
  intro fuel
  induction fuel with
  | zero =>
    intro cur rest indent map e h hp
    simp only [parseLoop, Except.error.injEq] at h
    rw [← h]
    exact ⟨rfl, rfl⟩
  | succ f ih =>
    intro cur rest indent map e h hp
    simp only [parseLoop] at h
    split at h
    · -- NewLine
      split at h
      · rename_i e2 r2 hnext
        simp only [Except.error.injEq] at h
        rw [← h]
        exact parserNext_err _ _ _ hnext
      · split at h
        · exact ih _ _ _ _ _ h hp
        · split at h
          · split at h
            · split at h
              · exact ih _ _ _ _ _ h hp
              · exact ih _ _ _ _ _ h hp
            · exact absurd h (by simp)
          · exact absurd h (by simp)
    · -- Indent
      split at h
      · split at h
        · exact ih _ _ _ _ _ h hp
        · exact ih _ _ _ _ _ h hp
      · exact absurd h (by simp)
    · -- EOF
      exact absurd h (by simp)
    · -- String: a key/value entry
      split at h
      · rename_i r hu
        simp only [Except.error.injEq] at h
        rw [← h] at hp
        rcases unquote_string_err hu with h1 | h1 <;>
          (subst h1; simp [zeroPosReason] at hp)
      · split at h
        · simp only [Except.error.injEq] at h
          rw [← h] at hp
          simp [zeroPosReason] at hp
        · split at h
          · rename_i e2 r2 hnext
            simp only [Except.error.injEq] at h
            rw [← h]
            exact parserNext_err _ _ _ hnext
          · split at h
            · rename_i e2 hcc
              simp only [Except.error.injEq] at h
              rw [← h]
              rw [← h] at hp
              exact commaCollect_err _ _ _ _ _ hcc hp
            · split at h
              · rename_i e2 r2 hif
                simp only [Except.error.injEq] at h
                rw [← h]
                split at hif
                · exact parserNext_err _ _ _ hif
                · exact absurd hif (by simp)
              · split at h
                · -- scalar String value
                  split at h
                  · rename_i r hu
                    simp only [Except.error.injEq] at h
                    rw [← h] at hp
                    rcases unquote_string_err hu with h1 | h1 <;>
                      (subst h1; simp [zeroPosReason] at hp)
                  · split at h
                    · rename_i e2 r2 hnext
                      simp only [Except.error.injEq] at h
                      rw [← h]
                      exact parserNext_err _ _ _ hnext
                    · exact ih _ _ _ _ _ h hp
                · -- scalar Number value
                  split at h
                  · rename_i e2 r2 hnext
                    simp only [Except.error.injEq] at h
                    rw [← h]
                    exact parserNext_err _ _ _ hnext
                  · exact ih _ _ _ _ _ h hp
                · -- scalar Bool value
                  split at h
                  · rename_i e2 r2 hnext
                    simp only [Except.error.injEq] at h
                    rw [← h]
                    exact parserNext_err _ _ _ hnext
                  · exact ih _ _ _ _ _ h hp
                · -- nested object or unexpected token
                  split at h
                  · split at h
                    · rename_i e2 hrec
                      simp only [Except.error.injEq] at h
                      rw [← h]
                      rw [← h] at hp
                      exact ih _ _ _ _ _ hrec hp
                    · split at h
                      · split at h
                        · exact absurd h (by simp)
                        · exact ih _ _ _ _ _ h hp
                      · exact ih _ _ _ _ _ h hp
                  · simp only [Except.error.injEq] at h
                    rw [← h] at hp
                    exact absurd hp (unexpected_token_string_not_zeroPos _)
    · -- any other first token of an entry
      simp only [Except.error.injEq] at h
      rw [← h] at hp
      exact absurd hp (unexpected_token_string_not_zeroPos _)

/-- Claim C7, amended: the `Unsupported lockfile version` error and the
`Unexpected end of input` error do not carry the position of the token that
triggered them — every error parse returns with either of those reasons has
`line = 0` and `col = 0`, exactly as `Parser::next` builds them.  (The
counterexample shows the contrast: the triggering comment token of
`# yarn lockfile v2` is at line 1, the error says line 0.) -/
theorem c7_amended (input : List Nat) (e : Error) (h : parse input = .error e)
    (hp : e.reason = "Unsupported lockfile version" ∨ e.reason = "Unexpected end of input") :
    e.line = 0 ∧ e.col = 0 := by
  have hp2 : zeroPosReason e.reason := hp
  simp only [parse] at h
  split at h
  · rename_i el htok
    simp only [Except.error.injEq] at h
    rw [← h] at hp2
    rcases tokenize_err_reason htok with h1 | h1 | h1 | h1 | h1 <;>
      simp [zeroPosReason, h1] at hp2
  · rename_i tokens htok
    simp only [parseTokens] at h
    split at h
    · rename_i e2 r2 hnext
      simp only [Except.error.injEq] at h
      rw [← h]
      exact parserNext_err _ _ _ hnext
    · rename_i c0 r0 hnext
      split at h
      · rename_i e2 hloop
        simp only [Except.error.injEq] at h
        rw [← h]
        rw [← h] at hp2
        exact parseLoop_err _ _ _ _ _ _ hloop hp2
      · exact absurd h (by simp)

/-- Witness for the amended error-position claim, at the input
`# yarn lockfile v2`, whose parse error is `Unsupported lockfile version`. -/
theorem c7_witness :
    (⟨0, 0, "Unsupported lockfile version"⟩ : Error).line = 0 ∧
    (⟨0, 0, "Unsupported lockfile version"⟩ : Error).col = 0 :=
  c7_amended c7input ⟨0, 0, "Unsupported lockfile version"⟩ rfl (Or.inl rfl)

/-! ## Quote round-trip (claim C9) -/

theorem utf8Step_encodeCp (n : Nat) (hv : n.isValidChar) (rest : List Nat) :
    utf8Step (utf8EncodeCp n ++ rest) = some (n, rest) := by
  by_cases h1 : n < 0x80
  · rw [show utf8EncodeCp n = [n] from by rw [utf8EncodeCp, if_pos h1]]
    simp only [List.cons_append, List.nil_append, utf8Step]
    rw [if_pos h1]
  · by_cases h2 : n < 0x800
    · rw [show utf8EncodeCp n = [0xC0 + n / 64, 0x80 + n % 64] from by
        rw [utf8EncodeCp, if_neg h1, if_pos h2]]
      simp only [List.cons_append, List.nil_append, utf8Step]
      rw [if_neg (by omega),
        if_pos (show (0xC2 : Nat) ≤ 0xC0 + n / 64 ∧ 0xC0 + n / 64 ≤ 0xDF by omega)]
      rw [if_pos (show (0x80 : Nat) ≤ 0x80 + n % 64 ∧ 0x80 + n % 64 ≤ 0xBF by omega)]
      rw [show (0xC0 + n / 64 - 0xC0) * 64 + (0x80 + n % 64 - 0x80) = n from by omega]
    · by_cases h3 : n < 0x10000
      · rw [show utf8EncodeCp n = [0xE0 + n / 4096, 0x80 + (n / 64) % 64, 0x80 + n % 64] from by
          rw [utf8EncodeCp, if_neg h1, if_neg h2, if_pos h3]]
        simp only [List.cons_append, List.nil_append, utf8Step]
        have hcond : ((if (0xE0 + n / 4096 : Nat) = 0xE0 then (0xA0 : Nat) else 0x80) ≤
              0x80 + (n / 64) % 64
            ∧ 0x80 + (n / 64) % 64 ≤
              (if (0xE0 + n / 4096 : Nat) = 0xED then (0x9F : Nat) else 0xBF))
            ∧ (0x80 ≤ 0x80 + n % 64 ∧ 0x80 + n % 64 ≤ 0xBF) := by
          refine ⟨⟨?_, ?_⟩, by omega⟩
          · split <;> omega
          · split <;> rcases hv with hv | ⟨hv1, hv2⟩ <;> omega
        rw [if_neg (by omega), if_neg (by omega),
          if_pos (show (0xE0 : Nat) ≤ 0xE0 + n / 4096 ∧ 0xE0 + n / 4096 ≤ 0xEF by omega)]
        rw [if_pos hcond]
        rw [show (0xE0 + n / 4096 - 0xE0) * 4096 + (0x80 + (n / 64) % 64 - 0x80) * 64
            + (0x80 + n % 64 - 0x80) = n from by omega]
      · have hb : n < 0x110000 := by rcases hv with hv | ⟨hv1, hv2⟩ <;> omega
        rw [show utf8EncodeCp n = [0xF0 + n / 262144, 0x80 + (n / 4096) % 64,
            0x80 + (n / 64) % 64, 0x80 + n % 64] from by
          rw [utf8EncodeCp, if_neg h1, if_neg h2, if_neg h3]]
        simp only [List.cons_append, List.nil_append, utf8Step]
        have hcond : ((if (0xF0 + n / 262144 : Nat) = 0xF0 then (0x90 : Nat) else 0x80) ≤
              0x80 + (n / 4096) % 64
            ∧ 0x80 + (n / 4096) % 64 ≤
              (if (0xF0 + n / 262144 : Nat) = 0xF4 then (0x8F : Nat) else 0xBF))
            ∧ (0x80 ≤ 0x80 + (n / 64) % 64 ∧ 0x80 + (n / 64) % 64 ≤ 0xBF)
            ∧ (0x80 ≤ 0x80 + n % 64 ∧ 0x80 + n % 64 ≤ 0xBF) := by
          refine ⟨⟨?_, ?_⟩, by omega, by omega⟩
          · split <;> omega
          · split <;> omega
        rw [if_neg (by omega), if_neg (by omega), if_neg (by omega),
          if_pos (show (0xF0 : Nat) ≤ 0xF0 + n / 262144 ∧ 0xF0 + n / 262144 ≤ 0xF4 by omega)]
        rw [if_pos hcond]
        rw [show (0xF0 + n / 262144 - 0xF0) * 262144 + (0x80 + (n / 4096) % 64 - 0x80) * 4096
            + (0x80 + (n / 64) % 64 - 0x80) * 64 + (0x80 + n % 64 - 0x80) = n from by omega]

theorem utf8EncodeCp_ne_nil (n : Nat) : utf8EncodeCp n ≠ [] := by
  rw [utf8EncodeCp]
  split_ifs <;> simp

theorem le_length_utf8EncodeChars (cs : List Char) :
    cs.length ≤ (utf8EncodeChars cs).length := by
  induction cs with
  | nil => simp [utf8EncodeChars]
  | cons c cs ih =>
    have h : 0 < (utf8EncodeCp c.toNat).length := by
      cases hE : utf8EncodeCp c.toNat with
      | nil => exact absurd hE (utf8EncodeCp_ne_nil _)
      | cons a t => simp
    rw [show utf8EncodeChars (c :: cs) = utf8EncodeCp c.toNat ++ utf8EncodeChars cs from by
      simp [utf8EncodeChars]]
    simp only [List.length_cons, List.length_append]
    omega

theorem utf8DecodeGo_encodeChars (cs : List Char) : ∀ (fuel : Nat) (rest : List Nat),
    utf8DecodeGo (fuel + cs.length) (utf8EncodeChars cs ++ rest) =
      (utf8DecodeGo fuel rest).map (cs ++ ·) := by
  induction cs with
  | nil =>
    intro fuel rest
    cases hd : utf8DecodeGo fuel rest <;> simp [utf8EncodeChars, hd]
  | cons c cs ih =>
    intro fuel rest
    rw [show utf8EncodeChars (c :: cs) = utf8EncodeCp c.toNat ++ utf8EncodeChars cs from by
      simp [utf8EncodeChars], List.append_assoc]
    rw [show fuel + (c :: cs).length = (fuel + cs.length) + 1 from by
      simp only [List.length_cons]; omega]
    have hne : utf8EncodeCp c.toNat ++ (utf8EncodeChars cs ++ rest) ≠ [] := by
      cases hE : utf8EncodeCp c.toNat with
      | nil => exact absurd hE (utf8EncodeCp_ne_nil _)
      | cons a t => simp
    simp only [utf8DecodeGo]
    rw [if_neg hne, utf8Step_encodeCp c.toNat c.valid]
    simp only [ih fuel rest, Char.ofNat_toNat]
    cases hd : utf8DecodeGo fuel rest <;> simp [hd]

theorem utf8DecodeGo_encode (cs : List Char) :
    utf8DecodeGo ((utf8EncodeChars cs).length + 1) (utf8EncodeChars cs) = some cs := by
  have hlen := le_length_utf8EncodeChars cs
  obtain ⟨f, hf⟩ : ∃ f, (utf8EncodeChars cs).length + 1 = (f + 1) + cs.length :=
    ⟨(utf8EncodeChars cs).length - cs.length, by omega⟩
  rw [hf, ← List.append_nil (utf8EncodeChars cs)]
  rw [utf8DecodeGo_encodeChars cs (f + 1) []]
  simp [utf8DecodeGo]

theorem ujs_go_quote (t b : List Char) : ujs_go ('"' :: t) b = some (String.mk b) := by
  conv_lhs => rw [ujs_go.eq_def]
  simp

theorem ujs_go_esc (e d : Char) (t b : List Char)
    (h : (e = '"' ∧ d = '"') ∨ (e = '\\' ∧ d = '\\') ∨ (e = '/' ∧ d = '/')
       ∨ (e = 'b' ∧ d = Char.ofNat 8) ∨ (e = 'f' ∧ d = Char.ofNat 12)
       ∨ (e = 'n' ∧ d = '\n') ∨ (e = 'r' ∧ d = '\r') ∨ (e = 't' ∧ d = '\t')) :
    ujs_go ('\\' :: e :: t) b = ujs_go t (b ++ [d]) := by
  conv_lhs => rw [ujs_go.eq_def]
  rcases h with ⟨he, hd⟩ | ⟨he, hd⟩ | ⟨he, hd⟩ | ⟨he, hd⟩ | ⟨he, hd⟩ | ⟨he, hd⟩ | ⟨he, hd⟩ |
    ⟨he, hd⟩ <;> subst he <;> subst hd <;> simp

theorem ujs_go_other (c : Char) (t b : List Char) (h1 : ¬ c = '"') (h2 : ¬ c = '\\') :
    ujs_go (c :: t) b = ujs_go t (b ++ [c]) := by
  conv_lhs => rw [ujs_go.eq_def]
  simp [h1, h2]

theorem ujs_go_escaped (s : List Char) : ∀ buf : List Char,
    ujs_go ((s.map jsonEscapeChar).flatten ++ ['"']) buf = some (String.mk (buf ++ s)) := by
  induction s with
  | nil =>
    intro buf
    simp only [List.map_nil, List.flatten_nil, List.nil_append]
    rw [ujs_go_quote]
    simp
  | cons c s ih =>
    intro buf
    rw [show ((c :: s).map jsonEscapeChar).flatten =
      jsonEscapeChar c ++ (s.map jsonEscapeChar).flatten from by simp, List.append_assoc]
    by_cases h1 : c = '"'
    · subst h1
      rw [show jsonEscapeChar '"' = ['\\', '"'] from by decide]
      simp only [List.cons_append, List.nil_append]
      rw [ujs_go_esc '"' '"' _ _ (Or.inl ⟨rfl, rfl⟩), ih]
      simp
    · by_cases h2 : c = '\\'
      · subst h2
        rw [show jsonEscapeChar '\\' = ['\\', '\\'] from by decide]
        simp only [List.cons_append, List.nil_append]
        rw [ujs_go_esc '\\' '\\' _ _ (Or.inr (Or.inl ⟨rfl, rfl⟩)), ih]
        simp
      · by_cases h3 : c = '/'
        · subst h3
          rw [show jsonEscapeChar '/' = ['\\', '/'] from by decide]
          simp only [List.cons_append, List.nil_append]
          rw [ujs_go_esc '/' '/' _ _ (Or.inr (Or.inr (Or.inl ⟨rfl, rfl⟩))), ih]
          simp
        · by_cases h4 : c = Char.ofNat 8
          · subst h4
            rw [show jsonEscapeChar (Char.ofNat 8) = ['\\', 'b'] from by decide]
            simp only [List.cons_append, List.nil_append]
            rw [ujs_go_esc 'b' (Char.ofNat 8) _ _
              (Or.inr (Or.inr (Or.inr (Or.inl ⟨rfl, rfl⟩)))), ih]
            simp
          · by_cases h5 : c = Char.ofNat 12
            · subst h5
              rw [show jsonEscapeChar (Char.ofNat 12) = ['\\', 'f'] from by decide]
              simp only [List.cons_append, List.nil_append]
              rw [ujs_go_esc 'f' (Char.ofNat 12) _ _
                (Or.inr (Or.inr (Or.inr (Or.inr (Or.inl ⟨rfl, rfl⟩))))), ih]
              simp
            · by_cases h6 : c = '\n'
              · subst h6
                rw [show jsonEscapeChar '\n' = ['\\', 'n'] from by decide]
                simp only [List.cons_append, List.nil_append]
                rw [ujs_go_esc 'n' '\n' _ _
                  (Or.inr (Or.inr (Or.inr (Or.inr (Or.inr (Or.inl ⟨rfl, rfl⟩)))))), ih]
                simp
              · by_cases h7 : c = '\r'
                · subst h7
                  rw [show jsonEscapeChar '\r' = ['\\', 'r'] from by decide]
                  simp only [List.cons_append, List.nil_append]
                  rw [ujs_go_esc 'r' '\r' _ _
                    (Or.inr (Or.inr (Or.inr (Or.inr (Or.inr (Or.inr (Or.inl ⟨rfl, rfl⟩))))))),
                    ih]
                  simp
                · by_cases h8 : c = '\t'
                  · subst h8
                    rw [show jsonEscapeChar '\t' = ['\\', 't'] from by decide]
                    simp only [List.cons_append, List.nil_append]
                    rw [ujs_go_esc 't' '\t' _ _
                      (Or.inr (Or.inr (Or.inr (Or.inr (Or.inr (Or.inr (Or.inr ⟨rfl, rfl⟩))))))),
                      ih]
                    simp
                  · have he : jsonEscapeChar c = [c] := by
                      simp only [jsonEscapeChar]
                      rw [if_neg h1, if_neg h2, if_neg h3, if_neg h4, if_neg h5, if_neg h6,
                        if_neg h7, if_neg h8]
                    rw [he, List.singleton_append, ujs_go_other c _ _ h1 h2, ih]
                    simp

/-- Claim C9: quote round-trip.  For every character list `s` — characters
from the escapable set and arbitrary Unicode scalar values alike — encoding `s`
as a JSON-quoted literal (spec-modelled, the repository ships no encoder) and
unquoting the resulting bytes with the source's unquote_string reproduces `s`
exactly. -/
theorem c9_roundtrip (s : List Char) :
    unquote_string (jsonQuoteBytes s) = .ok (String.mk s) := by
  have hform : jsonQuoteBytes s =
      34 :: utf8EncodeChars ((s.map jsonEscapeChar).flatten ++ ['"']) := by
    show utf8EncodeChars ('"' :: ((s.map jsonEscapeChar).flatten ++ ['"'])) = _
    rw [show utf8EncodeChars ('"' :: ((s.map jsonEscapeChar).flatten ++ ['"'])) =
      utf8EncodeCp ('"'.toNat) ++ utf8EncodeChars ((s.map jsonEscapeChar).flatten ++ ['"'])
      from by simp [utf8EncodeChars]]
    rw [show utf8EncodeCp ('"'.toNat) = [34] from by decide]
    rfl
  have hdec : utf8DecodeGo ((jsonQuoteBytes s).length + 1) (jsonQuoteBytes s) =
      some ('"' :: ((s.map jsonEscapeChar).flatten ++ ['"'])) := by
    show utf8DecodeGo ((utf8EncodeChars (jsonQuote s)).length + 1)
      (utf8EncodeChars (jsonQuote s)) = _
    rw [utf8DecodeGo_encode]
    rfl
  have hjson : unquote_json_string (jsonQuoteBytes s) = some (String.mk s) := by
    simp only [unquote_json_string, hdec]
    simp only [if_true]
    rw [ujs_go_escaped s []]
    simp
  have hcnd : jsonQuoteBytes s ≠ [] ∧ (jsonQuoteBytes s).headD 0 = 34 := by
    constructor
    · rw [hform]; simp
    · rw [hform]; simp
  simp only [unquote_string]
  rw [if_pos hcnd]
  simp only [hjson]

/-- Witness for the quote round-trip, at a string holding a letter, a quote, a
backslash, a newline and a non-ASCII scalar (U+1F600). -/
theorem c9_witness :
    unquote_string (jsonQuoteBytes ['y', '"', '\\', '\n', Char.ofNat 128512]) =
      .ok (String.mk ['y', '"', '\\', '\n', Char.ofNat 128512]) :=
  c9_roundtrip ['y', '"', '\\', '\n', Char.ofNat 128512]

end YarnLock
